import Mathlib

/-!
Verification of the NanoLog runtime core as shipped in this repository:
the decompressor CLI entry point (`main` in LogDecompressor.cc) and the
runtime header (class `NanoLog` with its `StagingBuffer`,
`StagingBufferDestroyer` and buffer registry).

Pointers into the staging buffer's backing `storage[]` array are modelled
as byte offsets (`Nat`); machine fences are modelled as explicit events in
the result of an operation, so that "fence, then update" is visible in the
returned trace.
-/

namespace NanoLog

/-- Memory-fence events emitted by the staging-buffer operations
(`Fence::sfence` in `finishReservation`, `Fence::lfence` in `consume`). -/
inductive Event where
  | sfence
  | lfence
deriving DecidableEq, Repr

/-- Modelled from the spec: `NanoLogConfig::STAGING_BUFFER_SIZE` lives in
Config.h, which is not among the sources; the spec fixes the reference
value at 1 MiB. -/
def STAGING_BUFFER_SIZE : Nat := 1048576

/-- State of `NanoLog::StagingBuffer`. The `char*` members `producerPos`,
`endOfRecordedSpace` and `consumerPos` are byte offsets from `storage`. -/
structure StagingBuffer where
  producerPos : Nat
  endOfRecordedSpace : Nat
  minFreeSpace : Nat
  cyclesProducerBlocked : Nat
  consumerPos : Nat
  shouldDeallocate : Bool
  id : Nat
deriving DecidableEq, Repr

/-- The `StagingBuffer(uint32_t bufferId)` constructor: `producerPos` and
`consumerPos` start at `storage` (offset 0), `endOfRecordedSpace` at
`storage + STAGING_BUFFER_SIZE`, `minFreeSpace` at the full capacity,
`shouldDeallocate` false, `id` the given `bufferId`. -/
def StagingBuffer.init (bufferId : Nat) : StagingBuffer where
  producerPos := 0
  endOfRecordedSpace := STAGING_BUFFER_SIZE
  minFreeSpace := STAGING_BUFFER_SIZE
  cyclesProducerBlocked := 0
  consumerPos := 0
  shouldDeallocate := false
  id := bufferId

/-- Result of `reserveProducerSpace`: either the fast in-line path returns
the current `producerPos`, or control transfers to the slow path
`reserveSpaceInternal(nbytes)` (declared but defined outside these
sources). -/
inductive ReserveResult where
  | fast (pos : Nat)
  | slow (nbytes : Nat)
deriving DecidableEq, Repr

/-- Models `StagingBuffer::reserveProducerSpace(size_t nbytes)`:
fast path when `nbytes < minFreeSpace`, otherwise
`reserveSpaceInternal(nbytes)`. -/
def reserveProducerSpace (s : StagingBuffer) (nbytes : Nat) : ReserveResult :=
  if nbytes < s.minFreeSpace then ReserveResult.fast s.producerPos
  else ReserveResult.slow nbytes

/-- Which of the two `assert`s in `finishReservation` fails. -/
inductive CommitError where
  | assertNbytesLtMinFree
  | assertProducerBelowEnd
deriving DecidableEq, Repr

/-- Models `StagingBuffer::finishReservation(size_t nbytes)`:
`assert(nbytes < minFreeSpace)`; `assert(producerPos + nbytes <
storage + STAGING_BUFFER_SIZE)`; `Fence::sfence()`; `minFreeSpace -=
nbytes`; `producerPos += nbytes`. The emitted fence precedes the state
update in the returned trace. -/
def finishReservation (s : StagingBuffer) (nbytes : Nat) :
    Except CommitError (List Event × StagingBuffer) :=
  if nbytes < s.minFreeSpace then
    if s.producerPos + nbytes < STAGING_BUFFER_SIZE then
      Except.ok ([Event.sfence],
        { s with minFreeSpace := s.minFreeSpace - nbytes,
                 producerPos := s.producerPos + nbytes })
    else Except.error CommitError.assertProducerBelowEnd
  else Except.error CommitError.assertNbytesLtMinFree

/-- Models `StagingBuffer::consume(uint64_t nbytes)`: `Fence::lfence()` then
`consumerPos += nbytes`. -/
def consume (s : StagingBuffer) (nbytes : Nat) : List Event × StagingBuffer :=
  ([Event.lfence], { s with consumerPos := s.consumerPos + nbytes })

/-- Models `StagingBuffer::checkCanDelete()`:
`return shouldDeallocate && consumerPos == producerPos`. -/
def checkCanDelete (s : StagingBuffer) : Bool :=
  s.shouldDeallocate && (s.consumerPos == s.producerPos)

theorem finishReservation_ok_inv {s : StagingBuffer} {nbytes : Nat}
    {tr : List Event} {s' : StagingBuffer}
    (h : finishReservation s nbytes = Except.ok (tr, s')) :
    tr = [Event.sfence] ∧
    s' = { s with minFreeSpace := s.minFreeSpace - nbytes,
                  producerPos := s.producerPos + nbytes } := by
  unfold finishReservation at h
  split at h
  · split at h
    · simp only [Except.ok.injEq, Prod.mk.injEq] at h
      exact ⟨h.1.symm, h.2.symm⟩
    · simp at h
  · simp at h

/-- Claim C2: `reserveProducerSpace(nbytes)` returns `producerPos`
immediately (the fast path) exactly when `nbytes < minFreeSpace`, with
strict inequality; `nbytes = minFreeSpace` takes the slow path
`reserveSpaceInternal`. -/
theorem reserveProducerSpace_fast_iff (s : StagingBuffer) (nbytes : Nat) :
    (reserveProducerSpace s nbytes = ReserveResult.fast s.producerPos ↔
      nbytes < s.minFreeSpace) ∧
    (nbytes = s.minFreeSpace →
      reserveProducerSpace s nbytes = ReserveResult.slow nbytes) := by
  constructor
  · constructor
    · intro h
      by_contra hn
      simp [reserveProducerSpace, hn] at h
    · intro h
      simp [reserveProducerSpace, h]
  · intro h
    subst h
    simp [reserveProducerSpace]

/-- Claim C2 witness: at the exact boundary `nbytes = minFreeSpace` the
slow path is taken. -/
theorem reserveProducerSpace_fast_iff_witness :
    reserveProducerSpace (StagingBuffer.init 1) STAGING_BUFFER_SIZE =
      ReserveResult.slow STAGING_BUFFER_SIZE :=
  (reserveProducerSpace_fast_iff (StagingBuffer.init 1) STAGING_BUFFER_SIZE).2 rfl

/-- Claim C4: `checkCanDelete()` returns true iff `shouldDeallocate` is
set and `consumerPos` equals `producerPos`. -/
theorem checkCanDelete_iff (s : StagingBuffer) :
    checkCanDelete s = true ↔
      s.shouldDeallocate = true ∧ s.consumerPos = s.producerPos := by
  simp [checkCanDelete]

/-- Claim C9: a freshly constructed `StagingBuffer` is empty and not
deletable: both positions are at the start of `storage`, `minFreeSpace`
is the full capacity, `endOfRecordedSpace` is `storage +
STAGING_BUFFER_SIZE`, `shouldDeallocate` is false, and
`checkCanDelete()` returns false. -/
theorem init_state (bufferId : Nat) :
    (StagingBuffer.init bufferId).producerPos = 0 ∧
    (StagingBuffer.init bufferId).consumerPos = 0 ∧
    (StagingBuffer.init bufferId).minFreeSpace = STAGING_BUFFER_SIZE ∧
    (StagingBuffer.init bufferId).endOfRecordedSpace = STAGING_BUFFER_SIZE ∧
    (StagingBuffer.init bufferId).shouldDeallocate = false ∧
    checkCanDelete (StagingBuffer.init bufferId) = false := by
  refine ⟨rfl, rfl, rfl, rfl, rfl, ?_⟩
  simp [checkCanDelete, StagingBuffer.init]

/-- Claim C3: under the commit precondition (the two assertion guards),
`finishReservation(nbytes)` issues the store fence and then advances
`producerPos` by exactly `nbytes` and decreases `minFreeSpace` by exactly
`nbytes`, leaving `consumerPos`, `endOfRecordedSpace`,
`shouldDeallocate` and `id` unchanged. -/
theorem finishReservation_effect (s : StagingBuffer) (nbytes : Nat)
    (h1 : nbytes < s.minFreeSpace)
    (h2 : s.producerPos + nbytes < STAGING_BUFFER_SIZE) :
    ∃ s', finishReservation s nbytes = Except.ok ([Event.sfence], s') ∧
      s'.producerPos = s.producerPos + nbytes ∧
      s'.minFreeSpace = s.minFreeSpace - nbytes ∧
      s'.consumerPos = s.consumerPos ∧
      s'.endOfRecordedSpace = s.endOfRecordedSpace ∧
      s'.shouldDeallocate = s.shouldDeallocate ∧
      s'.id = s.id := by
  refine ⟨{ s with minFreeSpace := s.minFreeSpace - nbytes,
                   producerPos := s.producerPos + nbytes }, ?_,
      rfl, rfl, rfl, rfl, rfl, rfl⟩
  simp [finishReservation, h1, h2]

/-- Claim C3 witness: committing 4 bytes on a fresh buffer. -/
theorem finishReservation_effect_witness :
    ∃ s', finishReservation (StagingBuffer.init 1) 4 =
        Except.ok ([Event.sfence], s') ∧
      s'.producerPos = (StagingBuffer.init 1).producerPos + 4 ∧
      s'.minFreeSpace = (StagingBuffer.init 1).minFreeSpace - 4 ∧
      s'.consumerPos = (StagingBuffer.init 1).consumerPos ∧
      s'.endOfRecordedSpace = (StagingBuffer.init 1).endOfRecordedSpace ∧
      s'.shouldDeallocate = (StagingBuffer.init 1).shouldDeallocate ∧
      s'.id = (StagingBuffer.init 1).id :=
  finishReservation_effect (StagingBuffer.init 1) 4 (by decide) (by decide)

/-- Claim C10: when `nbytes < minFreeSpace` and `producerPos + nbytes`
lies strictly below the end of `storage`, both assertions in
`finishReservation` pass and the new `producerPos` stays strictly inside
the storage region; committing exactly `minFreeSpace` bytes trips the
first assertion. -/
theorem finishReservation_safe (s : StagingBuffer) (nbytes : Nat)
    (h1 : nbytes < s.minFreeSpace)
    (h2 : s.producerPos + nbytes < STAGING_BUFFER_SIZE) :
    (∃ tr s', finishReservation s nbytes = Except.ok (tr, s') ∧
      s'.producerPos < STAGING_BUFFER_SIZE) ∧
    finishReservation s s.minFreeSpace =
      Except.error CommitError.assertNbytesLtMinFree := by
  constructor
  · exact ⟨[Event.sfence],
      { s with minFreeSpace := s.minFreeSpace - nbytes,
               producerPos := s.producerPos + nbytes },
      by simp [finishReservation, h1, h2], h2⟩
  · simp [finishReservation]

/-- Claim C10 witness: a 4-byte commit on a fresh buffer passes both
assertions; a commit of the whole of `minFreeSpace` fails the first. -/
theorem finishReservation_safe_witness :
    (∃ tr s', finishReservation (StagingBuffer.init 1) 4 =
        Except.ok (tr, s') ∧ s'.producerPos < STAGING_BUFFER_SIZE) ∧
    finishReservation (StagingBuffer.init 1)
        (StagingBuffer.init 1).minFreeSpace =
      Except.error CommitError.assertNbytesLtMinFree :=
  finishReservation_safe (StagingBuffer.init 1) 4 (by decide) (by decide)

/-- The number of values of the C type `uint32_t`: `nextBufferId` is a
`uint32_t`, so the post-increment in `nextBufferId++` wraps around
modulo this constant. -/
def UINT32_MOD : Nat := 4294967296

/-- State of the buffer registry inside the `NanoLog` singleton:
`nextBufferId` (a `uint32_t`, initialised to 1), the ids handed out whose
`StagingBuffer` is still being allocated outside the mutex, and the ids
already spliced into `threadBuffers`. -/
structure RegState where
  nextBufferId : Nat
  allocating : List Nat
  threadBuffers : List Nat
deriving DecidableEq, Repr

/-- The interleaved steps of `ensureStagingBufferAllocated`: under the
mutex a thread reads `bufferId = nextBufferId++` (step `assign`; the
increment of the `uint32_t` counter wraps modulo `UINT32_MOD`); after
the unlocked `new StagingBuffer(bufferId)` it re-locks and appends the
buffer to `threadBuffers` (step `insert`). Because allocation happens
outside the mutex, inserts may occur in any order relative to later
assigns. -/
inductive RegStep : RegState → RegState → Prop
  | assign (s : RegState) :
      RegStep s ⟨(s.nextBufferId + 1) % UINT32_MOD,
        s.allocating ++ [s.nextBufferId], s.threadBuffers⟩
  | insert (s : RegState) (l₁ l₂ : List Nat) (bid : Nat)
      (h : s.allocating = l₁ ++ bid :: l₂) :
      RegStep s ⟨s.nextBufferId, l₁ ++ l₂, s.threadBuffers ++ [bid]⟩

/-- Initial registry state: `nextBufferId = 1`, no buffers. -/
def RegState.init : RegState := ⟨1, [], []⟩

/-- Registry states reachable from the initial state. -/
def RegReachable (s : RegState) : Prop :=
  Relation.ReflTransGen RegStep RegState.init s

theorem regStep_inv {b c : RegState} (step : RegStep b c)
    (h : b.nextBufferId =
        (1 + (b.threadBuffers ++ b.allocating).length) % UINT32_MOD ∧
      (b.threadBuffers ++ b.allocating).Perm
        ((List.range (b.threadBuffers ++ b.allocating).length).map
          fun i => (1 + i) % UINT32_MOD)) :
    c.nextBufferId =
        (1 + (c.threadBuffers ++ c.allocating).length) % UINT32_MOD ∧
      (c.threadBuffers ++ c.allocating).Perm
        ((List.range (c.threadBuffers ++ c.allocating).length).map
          fun i => (1 + i) % UINT32_MOD) := by
  obtain ⟨hnext, hperm⟩ := h
  cases step with
  | assign =>
    have hlen : (b.threadBuffers ++
        (b.allocating ++ [b.nextBufferId])).length =
        (b.threadBuffers ++ b.allocating).length + 1 := by
      simp only [List.length_append, List.length_cons, List.length_nil]
      omega
    constructor
    · rw [hlen, hnext, Nat.mod_add_mod]
      rfl
    · have e1 : b.threadBuffers ++ (b.allocating ++ [b.nextBufferId]) =
          (b.threadBuffers ++ b.allocating) ++ [b.nextBufferId] :=
        (List.append_assoc ..).symm
      rw [hlen, e1, hnext, List.range_succ, List.map_append]
      exact hperm.append_right _
  | insert l₁ l₂ bid hb =>
    have e2 : (b.threadBuffers ++ [bid]) ++ (l₁ ++ l₂) =
        b.threadBuffers ++ (bid :: (l₁ ++ l₂)) := by
      rw [List.append_assoc]; rfl
    have p2 : ((b.threadBuffers ++ [bid]) ++ (l₁ ++ l₂)).Perm
        (b.threadBuffers ++ b.allocating) := by
      rw [e2, hb]
      exact List.Perm.append_left _ List.perm_middle.symm
    have hlen2 : ((b.threadBuffers ++ [bid]) ++ (l₁ ++ l₂)).length =
        (b.threadBuffers ++ b.allocating).length := p2.length_eq
    exact ⟨by rw [hlen2]; exact hnext, by rw [hlen2]; exact p2.trans hperm⟩

theorem regReachable_inv {s : RegState} (h : RegReachable s) :
    s.nextBufferId =
        (1 + (s.threadBuffers ++ s.allocating).length) % UINT32_MOD ∧
      (s.threadBuffers ++ s.allocating).Perm
        ((List.range (s.threadBuffers ++ s.allocating).length).map
          fun i => (1 + i) % UINT32_MOD) := by
  induction h with
  | refl => exact ⟨by decide, List.Perm.refl _⟩
  | tail _ step ih => exact regStep_inv step ih

/-- Claim C6 (amended): in every reachable registry state in which fewer
than 2^32 ids have been assigned, the ids ever assigned (those of
registered buffers together with those still being allocated) are
exactly the consecutive integers `1, 2, ..., k` up to order, `k` the
number of assignments; in particular they are pairwise distinct, even
though the buffer allocation happens outside the mutex. Beyond 2^32
assignments the `uint32_t` counter has wrapped and ids repeat. -/
theorem bufferIds_dense_distinct (s : RegState) (h : RegReachable s)
    (hlt : (s.threadBuffers ++ s.allocating).length < UINT32_MOD) :
    (s.threadBuffers ++ s.allocating).Perm
      (List.range' 1 (s.threadBuffers ++ s.allocating).length) ∧
    (s.threadBuffers ++ s.allocating).Nodup := by
  have hperm := (regReachable_inv h).2
  have hmap : ((List.range (s.threadBuffers ++ s.allocating).length).map
      fun i => (1 + i) % UINT32_MOD) =
      List.range' 1 (s.threadBuffers ++ s.allocating).length := by
    rw [List.range'_eq_map_range]
    apply List.map_congr_left
    intro i hi
    have hi' := List.mem_range.mp hi
    exact Nat.mod_eq_of_lt (by omega)
  rw [hmap] at hperm
  exact ⟨hperm, hperm.nodup_iff.mpr (List.nodup_range' _ _)⟩

/-- Claim C6 witness: two threads assign ids 1 and 2; the second insert
lands first, reaching the state `nextBufferId = 3`, registry `[2]`,
still-allocating `[1]`; the assigned ids are exactly `{1, 2}`. -/
theorem bufferIds_dense_distinct_witness :
    (([2] : List Nat) ++ [1]).Perm (List.range' 1 2) ∧
    (([2] : List Nat) ++ [1]).Nodup := by
  have h1 : RegStep RegState.init ⟨2, [1], []⟩ := RegStep.assign RegState.init
  have h2 : RegStep ⟨2, [1], []⟩ ⟨3, [1, 2], []⟩ :=
    RegStep.assign ⟨2, [1], []⟩
  have h3 : RegStep ⟨3, [1, 2], []⟩ ⟨3, [1], [2]⟩ :=
    RegStep.insert ⟨3, [1, 2], []⟩ [1] [] 2 rfl
  have hreach : RegReachable ⟨3, [1], [2]⟩ :=
    ((Relation.ReflTransGen.refl.tail h1).tail h2).tail h3
  exact bufferIds_dense_distinct ⟨3, [1], [2]⟩ hreach (by decide)

/-- The registry state after `k` consecutive assign steps and no
inserts: `nextBufferId` has been incremented `k` times modulo 2^32 and
the ids `(1 + i) % 2^32` for `i < k` have been handed out. -/
def wrapAssignIds (k : Nat) : RegState :=
  ⟨(1 + k) % UINT32_MOD,
   (List.range k).map fun i => (1 + i) % UINT32_MOD, []⟩

theorem wrapAssignIds_reachable (k : Nat) :
    RegReachable (wrapAssignIds k) := by
  induction k with
  | zero =>
    have h0 : wrapAssignIds 0 = RegState.init := by decide
    rw [h0]
    exact Relation.ReflTransGen.refl
  | succ n ih =>
    refine Relation.ReflTransGen.tail ih ?_
    have e1 : (1 + (n + 1)) % UINT32_MOD =
        ((1 + n) % UINT32_MOD + 1) % UINT32_MOD := by
      rw [Nat.mod_add_mod]
      rfl
    have e2 : (List.range (n + 1)).map (fun i => (1 + i) % UINT32_MOD) =
        ((List.range n).map fun i => (1 + i) % UINT32_MOD) ++
          [(1 + n) % UINT32_MOD] := by
      rw [List.range_succ, List.map_append]
      rfl
    show RegStep (wrapAssignIds n) (wrapAssignIds (n + 1))
    unfold wrapAssignIds
    rw [e1, e2]
    exact RegStep.assign _

theorem wrapAssignIds_allIds (k : Nat) :
    (wrapAssignIds k).threadBuffers ++ (wrapAssignIds k).allocating =
      (List.range k).map fun i => (1 + i) % UINT32_MOD := rfl

/-- Claim C6 counterexample: ids are not pairwise distinct for the whole
process lifetime. After 2^32 + 1 assignments the `uint32_t` counter
`nextBufferId` has wrapped and the id 1 has been handed out twice: the
resulting registry state is reachable and its assigned-id list has a
duplicate. -/
theorem bufferIds_wrap_counterexample :
    RegReachable (wrapAssignIds (UINT32_MOD + 1)) ∧
    ¬ ((wrapAssignIds (UINT32_MOD + 1)).threadBuffers ++
        (wrapAssignIds (UINT32_MOD + 1)).allocating).Nodup := by
  refine ⟨wrapAssignIds_reachable _, ?_⟩
  intro hnod
  rw [wrapAssignIds_allIds] at hnod
  have hinj := (List.nodup_map_iff_inj_on (List.nodup_range _)).mp hnod
  have h01 := hinj 0 (List.mem_range.mpr (Nat.succ_pos _))
    UINT32_MOD (List.mem_range.mpr (Nat.lt_succ_self _)) (by decide)
  exact absurd h01 (by decide)

/-- A logging thread together with the `StagingBuffer` it created:
`stagingBuffer` models whether the `__thread StagingBuffer*` pointer is
still non-null; `buffer` is the buffer object itself (it outlives the
pointer, being owned by the registry). -/
structure ThreadState where
  buffer : StagingBuffer
  stagingBuffer : Bool
deriving DecidableEq, Repr

/-- Models `StagingBufferDestroyer::~StagingBufferDestroyer()`: if the
thread-local `stagingBuffer` pointer is non-null, set
`stagingBuffer->shouldDeallocate = true` and null the pointer; otherwise
do nothing. -/
def destroyerDtor (t : ThreadState) : ThreadState :=
  if t.stagingBuffer then
    { buffer := { t.buffer with shouldDeallocate := true },
      stagingBuffer := false }
  else t

/-- Labels for the operations in these sources that read or write the
thread's buffer. -/
inductive ThreadLabel where
  | dtor
  | finish (nbytes : Nat)
  | consumeStep (nbytes : Nat)
deriving DecidableEq, Repr

/-- Step relation over a thread's buffer: the sentinel destructor at
thread death, a successful `finishReservation` by the producer, and a
`consume` by the worker. -/
inductive ThreadStep : ThreadLabel → ThreadState → ThreadState → Prop
  | dtor (t : ThreadState) : ThreadStep ThreadLabel.dtor t (destroyerDtor t)
  | finish (t : ThreadState) (nbytes : Nat) (tr : List Event)
      (b' : StagingBuffer)
      (h : finishReservation t.buffer nbytes = Except.ok (tr, b')) :
      ThreadStep (ThreadLabel.finish nbytes) t ⟨b', t.stagingBuffer⟩
  | consumeStep (t : ThreadState) (nbytes : Nat) :
      ThreadStep (ThreadLabel.consumeStep nbytes) t
        ⟨(consume t.buffer nbytes).2, t.stagingBuffer⟩

/-- Claim C7: across the modelled steps, `shouldDeallocate` once set never
returns to false; the only step that changes it is the sentinel
destructor, which finds the pointer non-null and nulls it in the same
step; a destructor run while the pointer is already null changes
nothing; after any destructor step a second run changes nothing (set at
most once). -/
theorem shouldDeallocate_once (l : ThreadLabel) (t t' : ThreadState)
    (h : ThreadStep l t t') :
    (t.buffer.shouldDeallocate = true → t'.buffer.shouldDeallocate = true) ∧
    (t'.buffer.shouldDeallocate ≠ t.buffer.shouldDeallocate →
      l = ThreadLabel.dtor ∧ t.stagingBuffer = true ∧
      t'.stagingBuffer = false) ∧
    (l = ThreadLabel.dtor → t.stagingBuffer = false → t' = t) ∧
    (l = ThreadLabel.dtor → destroyerDtor t' = t') := by
  cases h with
  | dtor t =>
    by_cases hp : t.stagingBuffer = true
    · refine ⟨?_, ?_, ?_, ?_⟩
      · intro _; simp [destroyerDtor, hp]
      · intro _; exact ⟨rfl, hp, by simp [destroyerDtor, hp]⟩
      · intro _ hn; rw [hp] at hn; exact absurd hn (by simp)
      · intro _; simp [destroyerDtor, hp]
    · have hp' : t.stagingBuffer = false := by
        revert hp; cases t.stagingBuffer <;> simp
      refine ⟨?_, ?_, ?_, ?_⟩
      · intro hd; simp [destroyerDtor, hp', hd]
      · intro hne; exact absurd (by simp [destroyerDtor, hp']) hne
      · intro _ _; simp [destroyerDtor, hp']
      · intro _; simp [destroyerDtor, hp']
  | finish t nbytes tr b' hfin =>
    have hb' := (finishReservation_ok_inv hfin).2
    refine ⟨?_, ?_, ?_, ?_⟩
    · intro hd; rw [hb']; exact hd
    · intro hne; exact absurd (by rw [hb']) hne
    · intro hl; exact absurd hl (by simp)
    · intro hl; exact absurd hl (by simp)
  | consumeStep t nbytes =>
    refine ⟨?_, ?_, ?_, ?_⟩
    · intro hd; exact hd
    · intro hne; exact absurd rfl hne
    · intro hl; exact absurd hl (by simp)
    · intro hl; exact absurd hl (by simp)

/-- Claim C7 witness: the sentinel destructor applied to a live thread
with a fresh buffer. -/
theorem shouldDeallocate_once_witness :
    ((ThreadState.mk (StagingBuffer.init 1) true).buffer.shouldDeallocate =
        true →
      (destroyerDtor
        (ThreadState.mk (StagingBuffer.init 1) true)).buffer.shouldDeallocate
        = true) ∧
    ((destroyerDtor
        (ThreadState.mk (StagingBuffer.init 1) true)).buffer.shouldDeallocate
        ≠ (ThreadState.mk (StagingBuffer.init 1)
            true).buffer.shouldDeallocate →
      ThreadLabel.dtor = ThreadLabel.dtor ∧
      (ThreadState.mk (StagingBuffer.init 1) true).stagingBuffer = true ∧
      (destroyerDtor
        (ThreadState.mk (StagingBuffer.init 1) true)).stagingBuffer =
        false) ∧
    (ThreadLabel.dtor = ThreadLabel.dtor →
      (ThreadState.mk (StagingBuffer.init 1) true).stagingBuffer = false →
      destroyerDtor (ThreadState.mk (StagingBuffer.init 1) true) =
        ThreadState.mk (StagingBuffer.init 1) true) ∧
    (ThreadLabel.dtor = ThreadLabel.dtor →
      destroyerDtor
          (destroyerDtor (ThreadState.mk (StagingBuffer.init 1) true)) =
        destroyerDtor (ThreadState.mk (StagingBuffer.init 1) true)) :=
  shouldDeallocate_once ThreadLabel.dtor
    (ThreadState.mk (StagingBuffer.init 1) true)
    (destroyerDtor (ThreadState.mk (StagingBuffer.init 1) true))
    (ThreadStep.dtor (ThreadState.mk (StagingBuffer.init 1) true))

end NanoLog

namespace GeneratedFunctions

/-- One entry of `GeneratedFunctions::logId2Metadata`. Strings are
modelled as character lists. -/
structure LogMetadata where
  fileName : List Char
  lineNumber : Nat
  fmtString : List Char
deriving DecidableEq, Repr, Inhabited

/-- Does `needle` occur at the start of `hay`? (Helper for `strstr`.) -/
def startsWith : (needle hay : List Char) → Bool
  | [], _ => true
  | _ :: _, [] => false
  | n :: ns, h :: hs => n == h && startsWith ns hs

/-- C `strstr(hay, needle) != NULL`: does `needle` occur contiguously in
`hay`? An empty `needle` always matches, as `strstr` then returns
`hay`. -/
def strstrBool : (hay needle : List Char) → Bool
  | [], needle => startsWith needle []
  | h :: t, needle => startsWith needle (h :: t) || strstrBool t needle

/-- One line printed by `printLogMetadataContainingSubstring`: the header
row or an entry row `id | filename | line | format string`. -/
inductive Row where
  | header
  | entry (id : Nat) (fileName : List Char) (lineNumber : Nat)
      (fmtString : List Char)
deriving DecidableEq, Repr

/-- The id carried by an entry row (0 for the header). -/
def rowId : Row → Nat
  | Row.header => 0
  | Row.entry i _ _ _ => i

/-- Models `printLogMetadataContainingSubstring(std::string searchString)`:
collect every `i < numLogIds` whose `logId2Metadata[i].fmtString`
contains `searchString` (via `strstr`), then print the header row
followed by one row per collected id. The returned list is the sequence
of printed lines. -/
def printLogMetadataContainingSubstring (logId2Metadata : List LogMetadata)
    (searchString : List Char) : List Row :=
  let matchingLogIds : List Nat :=
    (List.range logId2Metadata.length).filter fun i =>
      strstrBool ((logId2Metadata.getD i default).fmtString) searchString
  Row.header :: matchingLogIds.map fun i =>
    Row.entry i (logId2Metadata.getD i default).fileName
      (logId2Metadata.getD i default).lineNumber
      (logId2Metadata.getD i default).fmtString

/-- The entry row that `printLogMetadataContainingSubstring` would print
for id `i` of the given metadata table. -/
def entryRowOf (logId2Metadata : List LogMetadata) (i : Nat) : Row :=
  Row.entry i (logId2Metadata.getD i default).fileName
    (logId2Metadata.getD i default).lineNumber
    (logId2Metadata.getD i default).fmtString

theorem entryRowOf_injective (t : List LogMetadata) :
    Function.Injective (entryRowOf t) := by
  intro a b h
  simpa [entryRowOf] using congrArg rowId h

/-- Claim C8: the output of `printLogMetadataContainingSubstring` starts
with the single header row, contains no further header row, has exactly
one entry row for each id below `numLogIds` whose format string contains
the search string and none for any other id, and lists those rows in
strictly ascending id order. -/
theorem printLogMetadata_rows (t : List LogMetadata) (s : List Char) :
    (printLogMetadataContainingSubstring t s).head? = some Row.header ∧
    Row.header ∉ (printLogMetadataContainingSubstring t s).tail ∧
    (∀ i : Nat, (printLogMetadataContainingSubstring t s).tail.count
        (entryRowOf t i) =
      if i < t.length ∧ strstrBool (t.getD i default).fmtString s = true
      then 1 else 0) ∧
    (printLogMetadataContainingSubstring t s).tail.Pairwise
      (fun r r' => rowId r < rowId r') := by
  have htail : (printLogMetadataContainingSubstring t s).tail =
      ((List.range t.length).filter fun i =>
        strstrBool ((t.getD i default).fmtString) s).map (entryRowOf t) := by
    simp [printLogMetadataContainingSubstring, entryRowOf]
  refine ⟨rfl, ?_, ?_, ?_⟩
  · rw [htail]
    intro hmem
    obtain ⟨i, _, hi⟩ := List.mem_map.mp hmem
    exact absurd hi (by simp [entryRowOf])
  · intro i
    rw [htail, List.count_map_of_injective _ _ (entryRowOf_injective t)]
    have hnodup : ((List.range t.length).filter fun i =>
        strstrBool ((t.getD i default).fmtString) s).Nodup :=
      (List.nodup_range _).filter _
    by_cases hc : i < t.length ∧ strstrBool (t.getD i default).fmtString s
      = true
    · have hmem : i ∈ (List.range t.length).filter fun i =>
          strstrBool ((t.getD i default).fmtString) s :=
        List.mem_filter.mpr ⟨List.mem_range.mpr hc.1, hc.2⟩
      rw [if_pos hc]
      exact List.count_eq_one_of_mem hnodup hmem
    · have hnmem : i ∉ (List.range t.length).filter fun i =>
          strstrBool ((t.getD i default).fmtString) s := by
        intro hmem
        obtain ⟨h1, h2⟩ := List.mem_filter.mp hmem
        exact hc ⟨List.mem_range.mp h1, h2⟩
      rw [if_neg hc]
      exact List.count_eq_zero_of_not_mem hnmem
  · rw [htail, List.pairwise_map]
    have hlt : ((List.range t.length).filter fun i =>
        strstrBool ((t.getD i default).fmtString) s).Pairwise (· < ·) :=
      (List.pairwise_lt_range _).filter _
    exact hlt.imp fun h => by simpa [entryRowOf] using h

end GeneratedFunctions

namespace LogDecompressor

/-- Outcome of `std::stoi(argv[2])`: a parsed value, or one of the two
exceptions `main` catches. `std::stoi` is a C++ standard-library
function; its result on a given string is an input of the model. -/
inductive StoiR where
  | ok (v : Int)
  | invalidArgument
  | outOfRange
deriving DecidableEq, Repr

/-- How `main` terminates: an early `exit`, the unopenable-file branch,
or a call to `decoder.decompressUnordered(stdout, msgsToPrint)` followed
by `return 0`. -/
inductive MainResult where
  | usageExit
  | invalidCountExit
  | outOfRangeExit
  | negativeCountExit
  | openFailed
  | decompressed (msgsToPrint : Int)
deriving DecidableEq, Repr

/-- The process exit code each outcome of `main` produces. -/
def exitCode : MainResult → Int
  | MainResult.usageExit => 1
  | MainResult.invalidCountExit => -1
  | MainResult.outOfRangeExit => -1
  | MainResult.negativeCountExit => -1
  | MainResult.openFailed => 0
  | MainResult.decompressed _ => 0

/-- Models `main(int argc, char** argv)` of LogDecompressor.cc. `argv` is the
full argument vector (`argv[0]` the program name, so `argc =
argv.length`); `stoi` gives the behaviour of `std::stoi` on each string;
`openOk` tells whether `Log::Decoder::open` succeeds on a path.
If `argc < 2`, print usage and `exit(1)`. If `argc > 2`, parse
`argv[2]`: `invalid_argument` and `out_of_range` both `exit(-1)`, as
does a parsed negative value. A count of 0 (also the default when no
count argument is given) is replaced by -1. Then open `argv[1]`; on
failure print an error (and fall through to `return 0`), otherwise
decompress and `return 0`. -/
def mainRun (argv : List String) (stoi : String → StoiR)
    (openOk : String → Bool) : MainResult :=
  if argv.length < 2 then
    MainResult.usageExit
  else
    let parsed : Except MainResult Int :=
      if 2 < argv.length then
        match stoi (argv.getD 2 "") with
        | StoiR.invalidArgument => Except.error MainResult.invalidCountExit
        | StoiR.outOfRange => Except.error MainResult.outOfRangeExit
        | StoiR.ok v =>
          if v < 0 then Except.error MainResult.negativeCountExit
          else Except.ok v
      else Except.ok 0
    match parsed with
    | Except.error r => r
    | Except.ok m =>
      let msgsToPrint := if m = 0 then -1 else m
      if openOk (argv.getD 1 "") then MainResult.decompressed msgsToPrint
      else MainResult.openFailed

/-- Modelled from the spec: `Log::Decoder::decompressUnordered(sink,
maxMessages)` is implemented in the runtime's Log.cc, which is not among
these sources. Per the spec it reads records in file order and "Stops
after `maxMessages` records (or when `maxMessages < 0`, runs to
end-of-file)". The records it renders from the file's record stream are
returned. -/
def decompressUnordered {α : Type} (records : List α)
    (maxMessages : Int) : List α :=
  if maxMessages < 0 then records else records.take maxMessages.toNat

/-- Claim C1 counterexample: with a two-argument invocation whose log
file cannot be opened (`openOk` is constantly false), `main` prints an
error message but falls through to `return 0`: the exit code is 0, not
the -1 the claim states for an unopenable file. -/
theorem exitCode_openFailed_counterexample :
    exitCode (mainRun ["decoder", "missing.log"]
      (fun _ => StoiR.invalidArgument) (fun _ => false)) = 0 ∧
    ((0 : Int) = -1 → False) :=
  ⟨rfl, by decide⟩

/-- Claim C1 (amended): `main` exits 1 when fewer than two arguments are
given; exits -1 when the count argument is non-numeric, out of range, or
negative; but when the log file cannot be opened it prints an error and
still returns 0, and on success it returns 0. -/
theorem mainRun_exitCodes (argv : List String) (stoi : String → StoiR)
    (openOk : String → Bool) :
    (argv.length < 2 → exitCode (mainRun argv stoi openOk) = 1) ∧
    (2 < argv.length → stoi (argv.getD 2 "") = StoiR.invalidArgument →
      exitCode (mainRun argv stoi openOk) = -1) ∧
    (2 < argv.length → stoi (argv.getD 2 "") = StoiR.outOfRange →
      exitCode (mainRun argv stoi openOk) = -1) ∧
    (∀ v : Int, 2 < argv.length → stoi (argv.getD 2 "") = StoiR.ok v →
      v < 0 → exitCode (mainRun argv stoi openOk) = -1) ∧
    (2 ≤ argv.length →
      (argv.length = 2 ∨
        ∃ v : Int, stoi (argv.getD 2 "") = StoiR.ok v ∧ 0 ≤ v) →
      openOk (argv.getD 1 "") = false →
      exitCode (mainRun argv stoi openOk) = 0) ∧
    (∀ m : Int, mainRun argv stoi openOk = MainResult.decompressed m →
      exitCode (mainRun argv stoi openOk) = 0) := by
  refine ⟨?_, ?_, ?_, ?_, ?_, ?_⟩
  · intro h
    simp only [mainRun, if_pos h]
    rfl
  · intro h2 hs
    have hn : ¬ argv.length < 2 := by omega
    simp only [mainRun, if_neg hn, if_pos h2]
    rw [hs]
    rfl
  · intro h2 hs
    have hn : ¬ argv.length < 2 := by omega
    simp only [mainRun, if_neg hn, if_pos h2]
    rw [hs]
    rfl
  · intro v h2 hs hv
    have hn : ¬ argv.length < 2 := by omega
    simp only [mainRun, if_neg hn, if_pos h2]
    rw [hs]
    simp only [if_pos hv]
    rfl
  · intro h2 hdisj ho
    rcases hdisj with heq | ⟨v, hs, hv0⟩
    · have hn : ¬ argv.length < 2 := by omega
      have h3 : ¬ 2 < argv.length := by omega
      simp only [mainRun, if_neg hn, if_neg h3]
      rw [ho]
      rfl
    · have hn : ¬ argv.length < 2 := by omega
      by_cases h3 : 2 < argv.length
      · have hv : ¬ v < 0 := by omega
        simp only [mainRun, if_neg hn, if_pos h3]
        rw [hs]
        simp only [if_neg hv]
        rw [ho]
        rfl
      · simp only [mainRun, if_neg hn, if_neg h3]
        rw [ho]
        rfl
  · intro m hm
    rw [hm]
    rfl

/-- Claim C1 witness: invoking the decoder with no log file exits 1. -/
theorem mainRun_exitCodes_witness :
    exitCode (mainRun ["decoder"] (fun _ => StoiR.ok 0)
      (fun _ => true)) = 1 :=
  (mainRun_exitCodes ["decoder"] (fun _ => StoiR.ok 0)
    (fun _ => true)).1 (by decide)

/-- Claim C5: `main` rejects a negative count with `exit(-1)`; a count of
0 (or an absent count, which defaults to 0) is converted to -1 before
`decompressUnordered` is called, and `decompressUnordered` with a
negative `maxMessages` runs to end-of-file, returning every record. -/
theorem mainRun_count_semantics {α : Type} (argv : List String)
    (stoi : String → StoiR) (openOk : String → Bool) (records : List α) :
    (∀ v : Int, 2 < argv.length → stoi (argv.getD 2 "") = StoiR.ok v →
      v < 0 → mainRun argv stoi openOk = MainResult.negativeCountExit ∧
        exitCode (mainRun argv stoi openOk) = -1) ∧
    (2 ≤ argv.length →
      (argv.length = 2 ∨ stoi (argv.getD 2 "") = StoiR.ok 0) →
      openOk (argv.getD 1 "") = true →
      mainRun argv stoi openOk = MainResult.decompressed (-1) ∧
      decompressUnordered records (-1 : Int) = records) := by
  constructor
  · intro v h2 hs hv
    have hn : ¬ argv.length < 2 := by omega
    constructor
    · simp only [mainRun, if_neg hn, if_pos h2]
      rw [hs]
      simp only [if_pos hv]
    · simp only [mainRun, if_neg hn, if_pos h2]
      rw [hs]
      simp only [if_pos hv]
      rfl
  · intro h2 hdisj ho
    have hn : ¬ argv.length < 2 := by omega
    have hdec : decompressUnordered records (-1 : Int) = records := by
      simp [decompressUnordered]
    rcases hdisj with heq | hs
    · have h3 : ¬ 2 < argv.length := by omega
      refine ⟨?_, hdec⟩
      simp only [mainRun, if_neg hn, if_neg h3]
      rw [ho]
      rfl
    · by_cases h3 : 2 < argv.length
      · refine ⟨?_, hdec⟩
        simp only [mainRun, if_neg hn, if_pos h3]
        rw [hs, ho]
        rfl
      · refine ⟨?_, hdec⟩
        simp only [mainRun, if_neg hn, if_neg h3]
        rw [ho]
        rfl

/-- Claim C5 witness: an explicit count of 0 on an openable file yields
`decompressUnordered` with -1, which returns all records. -/
theorem mainRun_count_semantics_witness :
    mainRun ["decoder", "file.log", "0"] (fun _ => StoiR.ok 0)
        (fun _ => true) = MainResult.decompressed (-1) ∧
    decompressUnordered ([0, 1, 2] : List Nat) (-1 : Int) = [0, 1, 2] :=
  (mainRun_count_semantics ["decoder", "file.log", "0"]
    (fun _ => StoiR.ok 0) (fun _ => true) ([0, 1, 2] : List Nat)).2
    (by decide) (Or.inr rfl) rfl

end LogDecompressor
